import Mathlib

/-
Shallow embedding of the portfolio calculation core of the
finance-assets-tracker repository.

Conventions of the embedding:
- JavaScript numbers are modelled as rationals; float rounding is
  abstracted away, so equalities stated here are exact where the source
  is exact up to floating tolerance.
- The one place where exceptional float values matter to a claim (the
  unguarded division in updateHoldingWithLiveData) is modelled with an
  explicit JsNum type carrying Infinity and NaN, with the division and
  multiplication semantics of IEEE floats restricted to what the source
  can produce.
- Calendar dates have date-only semantics in the source (yyyy-MM-dd
  strings); they are modelled as natural numbers (day indices).
- Division by zero on rationals follows the Lean convention x / 0 = 0;
  theorems that depend on a division never taking a zero denominator
  carry hypotheses ruling that out, or use JsNum where the claim is
  about the exceptional value itself.
-/

-- ===========================================
-- JS exceptional-value model (for the one unguarded division)
-- ===========================================

/-- Result of a JavaScript floating-point operation: a finite value,
a signed infinity, or NaN. -/
inductive JsNum where
  | num (q : ℚ)
  | posInf
  | negInf
  | nan
deriving DecidableEq, Repr

/-- JavaScript division a / b for finite operands: finite quotient when
b is nonzero, signed infinity for nonzero / zero, NaN for 0 / 0.
(The denominators produced by the source are computed sums, hence +0.) -/
def jsDiv (a b : ℚ) : JsNum :=
  if b ≠ 0 then .num (a / b)
  else if 0 < a then .posInf
  else if a < 0 then .negInf
  else .nan

/-- JavaScript multiplication of a possibly exceptional value by a finite
constant (the source only multiplies the division result by 100). -/
def jsMul (x : JsNum) (c : ℚ) : JsNum :=
  match x with
  | .num q => .num (q * c)
  | .posInf => if 0 < c then .posInf else if c < 0 then .negInf else .nan
  | .negInf => if 0 < c then .negInf else if c < 0 then .posInf else .nan
  | .nan => .nan

-- ===========================================
-- Data model (src/src/types/index.ts)
-- ===========================================

/-- transaction_type field of a Transaction: BUY | SELL. -/
inductive TxType where
  | BUY
  | SELL
deriving DecidableEq, Repr

/-- A trade record (src/src/types/index.ts, interface Transaction).
Identity fields (id, user_id, created_at, updated_at) and free-text
fields not read by the calculation core are omitted; user scoping is
modelled at the database level for the server actions. -/
structure Transaction where
  ticker : String
  asset_type : String
  asset_name : String
  transaction_type : TxType
  quantity : ℚ
  price_per_share : ℚ
  currency : String
  exchange_rate_to_pln : ℚ
  fees : ℚ := 0
  transaction_date : ℕ
deriving DecidableEq, Repr

/-- A derived aggregate position (src/src/types/index.ts, interface
Holding).  The optional fields are populated by
updateHoldingWithLiveData; total_return_percent is a JsNum because the
source computes it with an unguarded division. -/
structure Holding where
  ticker : String
  asset_name : String
  asset_type : String
  total_quantity : ℚ
  avg_buy_price : ℚ
  original_currency : String
  avg_exchange_rate : ℚ
  total_invested_pln : ℚ
  transactions : List Transaction
  current_price : Option ℚ := none
  current_exchange_rate : Option ℚ := none
  current_value_pln : Option ℚ := none
  day_change_percent : Option ℚ := none
  total_return_pln : Option ℚ := none
  total_return_percent : Option JsNum := none
deriving DecidableEq, Repr

/-- A realized profit ledger entry (src/src/types/index.ts, interface
ClosedPosition), as inserted by handleSellTransaction. -/
structure ClosedPosition where
  user_id : String
  ticker : String
  asset_type : String
  quantity_sold : ℚ
  avg_buy_price_original : ℚ
  avg_buy_exchange_rate : ℚ
  sell_price : ℚ
  sell_exchange_rate : ℚ
  realized_profit_pln : ℚ
  closed_date : ℕ
deriving DecidableEq, Repr

-- ===========================================
-- Holdings Aggregator (src/src/lib/calculations.ts)
-- ===========================================

/-- groupByTicker (src/src/lib/calculations.ts lines 286-296): group
transactions by ticker into an insertion-ordered association list,
appending each transaction at the end of the list of its ticker,
exactly like the JS Map-based loop. -/
def groupByTicker (transactions : List Transaction) : List (String × List Transaction) :=
  transactions.foldl
    (fun grouped tx =>
      if grouped.any (fun g => g.1 = tx.ticker) then
        grouped.map (fun g => if g.1 = tx.ticker then (g.1, g.2 ++ [tx]) else g)
      else
        grouped ++ [(tx.ticker, [tx])])
    []

/-- Stable insertion of a transaction into a list sorted by descending
transaction_date (models the stable JS sort with comparator
dateb - datea used on the transactions field of a Holding). -/
def insertByDateDesc (t : Transaction) : List Transaction → List Transaction
  | [] => [t]
  | u :: us =>
      if t.transaction_date ≤ u.transaction_date then u :: insertByDateDesc t us
      else t :: u :: us

/-- Sort transactions by descending date, stable. -/
def sortByDateDesc (transactions : List Transaction) : List Transaction :=
  transactions.foldr insertByDateDesc []

/-- calculateSingleHolding (src/src/lib/calculations.ts lines 42-112):
split the ticker group into BUY and SELL subsets, net the quantities,
return none when the position is empty or fully sold, otherwise build
the Holding with quantity-weighted average price and rate and the
proportionally reduced PLN cost basis. -/
def calculateSingleHolding (ticker : String) (transactions : List Transaction) :
    Option Holding :=
  match transactions with
  | [] => none
  | firstTransaction :: _ =>
    let buyTransactions := transactions.filter (fun t => t.transaction_type = TxType.BUY)
    let sellTransactions := transactions.filter (fun t => t.transaction_type = TxType.SELL)
    let totalBought := (buyTransactions.map (fun t => t.quantity)).sum
    let totalSold := (sellTransactions.map (fun t => t.quantity)).sum
    let currentQuantity := totalBought - totalSold
    if currentQuantity ≤ 0 then none
    else
      let totalCostOriginal :=
        (buyTransactions.map (fun t => t.quantity * t.price_per_share)).sum
      let totalCostPLN :=
        (buyTransactions.map
          (fun t => t.quantity * t.price_per_share * t.exchange_rate_to_pln)).sum
      let weightedExchangeRateSum :=
        (buyTransactions.map (fun t => t.exchange_rate_to_pln * t.quantity)).sum
      let avgBuyPrice := totalCostOriginal / totalBought
      let avgExchangeRate := weightedExchangeRateSum / totalBought
      let costBasisRatio := currentQuantity / totalBought
      let adjustedInvestedPLN := totalCostPLN * costBasisRatio
      some
        { ticker := ticker
          asset_name := firstTransaction.asset_name
          asset_type := firstTransaction.asset_type
          total_quantity := currentQuantity
          avg_buy_price := avgBuyPrice
          original_currency := firstTransaction.currency
          avg_exchange_rate := avgExchangeRate
          total_invested_pln := adjustedInvestedPLN
          transactions := sortByDateDesc transactions }

/-- calculateHoldings (src/src/lib/calculations.ts lines 20-36): group
by ticker, compute each holding, keep only the ones with positive
quantity. -/
def calculateHoldings (transactions : List Transaction) : List Holding :=
  (groupByTicker transactions).filterMap
    (fun g =>
      match calculateSingleHolding g.1 g.2 with
      | some holding => if 0 < holding.total_quantity then some holding else none
      | none => none)

-- ===========================================
-- Live Valuation Merger (src/src/lib/calculations.ts lines 126-170)
-- ===========================================

/-- updateHoldingWithLiveData: merge a holding with a live quote.
The percent return divides by total_invested_pln with no guard in the
source, so it is modelled with JavaScript division semantics. -/
def updateHoldingWithLiveData (holding : Holding) (currentPrice : ℚ)
    (currentExchangeRate : ℚ) (dayChangePercent : ℚ) : Holding :=
  let currentValuePLN := holding.total_quantity * currentPrice * currentExchangeRate
  let totalReturnPLN := currentValuePLN - holding.total_invested_pln
  let totalReturnPercent := jsMul (jsDiv totalReturnPLN holding.total_invested_pln) 100
  { holding with
      current_price := some currentPrice
      current_exchange_rate := some currentExchangeRate
      current_value_pln := some currentValuePLN
      day_change_percent := some dayChangePercent
      total_return_pln := some totalReturnPLN
      total_return_percent := some totalReturnPercent }

-- ===========================================
-- Realized P/L Calculator (src/src/lib/calculations.ts lines 186-213)
-- ===========================================

/-- calculateRealizedProfit: sale value minus cost basis, both in PLN. -/
def calculateRealizedProfit (avgBuyPrice avgBuyExchangeRate sellPrice
    sellExchangeRate quantity : ℚ) : ℚ :=
  let costBasisPLN := quantity * avgBuyPrice * avgBuyExchangeRate
  let saleValuePLN := quantity * sellPrice * sellExchangeRate
  saleValuePLN - costBasisPLN

-- ===========================================
-- Portfolio Summary Aggregator
-- (src/src/app/page.tsx lines 271-319, the lib/calculations revision
-- that the DashboardPage call site src/unnamed/part_000 line 496
-- type-checks against: it takes the closed positions as a second
-- argument and adds realized profit into the total return.  The older
-- revision of the same function at src/src/lib/calculations.ts lines
-- 232-277 omits the closed-positions argument.)
-- ===========================================

structure PortfolioSummary where
  totalValuePLN : ℚ
  totalInvestedPLN : ℚ
  totalReturnPLN : ℚ
  totalReturnPercent : ℚ
  dayChangePLN : ℚ
  dayChangePercent : ℚ
  assetCount : ℕ
  realizedProfitPLN : ℚ
  unrealizedReturnPLN : ℚ
deriving DecidableEq, Repr

/-- calculatePortfolioSummary: roll holdings plus closed positions up
into the dashboard KPIs.  Holdings without live data fall back to cost
basis as current value. -/
def calculatePortfolioSummary (holdings : List Holding)
    (closedPositions : List ClosedPosition) : PortfolioSummary :=
  let acc := holdings.foldl
    (fun (acc : ℚ × ℚ × ℚ) holding =>
      let totalInvestedPLN := acc.2.1 + holding.total_invested_pln
      match holding.current_value_pln with
      | some cv =>
          let totalValuePLN := acc.1 + cv
          let previousDayValuePLN :=
            match holding.day_change_percent with
            | some dcp => acc.2.2 + cv / (1 + dcp / 100)
            | none => acc.2.2 + cv
          (totalValuePLN, totalInvestedPLN, previousDayValuePLN)
      | none =>
          (acc.1 + holding.total_invested_pln, totalInvestedPLN,
            acc.2.2 + holding.total_invested_pln))
    (0, 0, 0)
  let totalValuePLN := acc.1
  let totalInvestedPLN := acc.2.1
  let previousDayValuePLN := acc.2.2
  let unrealizedReturnPLN := totalValuePLN - totalInvestedPLN
  let dayChangePLN := totalValuePLN - previousDayValuePLN
  let dayChangePercent :=
    if 0 < previousDayValuePLN then dayChangePLN / previousDayValuePLN * 100 else 0
  let realizedProfitPLN :=
    closedPositions.foldl (fun sum p => sum + p.realized_profit_pln) 0
  let totalReturnPLN := unrealizedReturnPLN + realizedProfitPLN
  let totalReturnPercent :=
    if 0 < totalInvestedPLN then totalReturnPLN / totalInvestedPLN * 100 else 0
  { totalValuePLN := totalValuePLN
    totalInvestedPLN := totalInvestedPLN
    totalReturnPLN := totalReturnPLN
    totalReturnPercent := totalReturnPercent
    dayChangePLN := dayChangePLN
    dayChangePercent := dayChangePercent
    assetCount := holdings.length
    realizedProfitPLN := realizedProfitPLN
    unrealizedReturnPLN := unrealizedReturnPLN }

-- ===========================================
-- Price Anomaly Utilities (src/src/lib/price-multiplier.ts)
-- ===========================================

structure PriceAnomalyResult where
  detected : Bool
  suggestedMultiplier : ℚ
  label : String
  severityWarning : Bool
  ratio : ℚ
deriving DecidableEq, Repr

/-- The no-anomaly result returned for degenerate inputs and for prices
that agree (severity auto is encoded as severityWarning = false). -/
def noAnomaly : PriceAnomalyResult :=
  { detected := false
    suggestedMultiplier := 1
    label := ""
    severityWarning := false
    ratio := 0 }

/-- Currencies quoted in minor units (GBX, GBp, ZAC, ILA). -/
def subUnitCurrencies : List String := ["GBX", "GBp", "ZAC", "ILA"]

def isInRange (value min max : ℚ) : Bool :=
  min ≤ value && value ≤ max

/-- detectPriceMultiplier (src/src/lib/price-multiplier.ts lines 19-97).
The prices are Option values: none models an absent (undefined)
argument, which the JS truthiness guard catches together with zero and
negative values before the ratio is computed.  The interpolated label
of scenario 4 is modelled by its constant text. -/
def detectPriceMultiplier (userPrice yahooPrice : Option ℚ)
    (yahooCurrency : Option String) : PriceAnomalyResult :=
  match userPrice, yahooPrice with
  | some up, some yp =>
    if up ≤ 0 || yp ≤ 0 then noAnomaly
    else
      let ratio := yp / up
      if isInRange ratio 85 115 then
        let isSubUnit :=
          match yahooCurrency with
          | some c => subUnitCurrencies.contains c
          | none => false
        { detected := true
          suggestedMultiplier := 100
          label :=
            if isSubUnit then "Converted (x100)"
            else "Price ~100x lower - likely needs conversion to Pence/Cents"
          severityWarning := false
          ratio := ratio }
      else if isInRange ratio (8/1000) (12/1000) then
        { detected := true
          suggestedMultiplier := 1/100
          label := "Price ~100x higher - likely needs conversion to major currency"
          severityWarning := false
          ratio := ratio }
      else if isInRange ratio (8/100) (12/100) then
        { detected := true, suggestedMultiplier := 1/10
          label := "Price mismatch (~10:1 ratio) - possible stock split?"
          severityWarning := true, ratio := ratio }
      else if isInRange ratio (18/100) (22/100) then
        { detected := true, suggestedMultiplier := 2/10
          label := "Price mismatch (~5:1 ratio) - possible stock split?"
          severityWarning := true, ratio := ratio }
      else if isInRange ratio (23/100) (27/100) then
        { detected := true, suggestedMultiplier := 25/100
          label := "Price mismatch (~4:1 ratio) - possible stock split?"
          severityWarning := true, ratio := ratio }
      else if isInRange ratio (45/100) (55/100) then
        { detected := true, suggestedMultiplier := 5/10
          label := "Price mismatch (~2:1 ratio) - possible stock split?"
          severityWarning := true, ratio := ratio }
      else if ratio < 1/2 || 2 < ratio then
        { detected := true, suggestedMultiplier := 1
          label := "Significant price mismatch"
          severityWarning := true, ratio := ratio }
      else noAnomaly
  | _, _ => noAnomaly

-- ===========================================
-- Server actions (src/src/actions/transactions.ts)
-- ===========================================

/-- A transaction row scoped to its owner, as stored in the
transactions table. -/
structure UserTransaction where
  user_id : String
  tx : Transaction
deriving DecidableEq, Repr

/-- The persistent store touched by addTransaction: the transactions
table and the closed_positions table. -/
structure Database where
  transactions : List UserTransaction
  closed_positions : List ClosedPosition
deriving DecidableEq, Repr

/-- The AddTransactionForm payload (src/src/types/index.ts). -/
structure AddTransactionForm where
  ticker : String
  asset_type : String
  asset_name : String
  transaction_type : TxType
  quantity : ℚ
  price_per_share : ℚ
  currency : String
  exchange_rate_to_pln : ℚ
  fees : Option ℚ := none
  transaction_date : ℕ
deriving DecidableEq, Repr

/-- The row addTransaction inserts into the transactions table. -/
def formToTransaction (formData : AddTransactionForm) : Transaction :=
  { ticker := formData.ticker
    asset_type := formData.asset_type
    asset_name := formData.asset_name
    transaction_type := formData.transaction_type
    quantity := formData.quantity
    price_per_share := formData.price_per_share
    currency := formData.currency
    exchange_rate_to_pln := formData.exchange_rate_to_pln
    fees := formData.fees.getD 0
    transaction_date := formData.transaction_date }

/-- handleSellTransaction (src/src/actions/transactions.ts lines
89-143): fetch the pre-existing transactions of this user and ticker,
rebuild the holdings, and when a holding for the ticker exists insert a
closed-position row with the realized profit; when none exists the
function only logs a warning and returns with the database unchanged. -/
def handleSellTransaction (db : Database) (userId : String)
    (formData : AddTransactionForm) : Database :=
  let existingTransactions :=
    (db.transactions.filter
      (fun r => r.user_id = userId && r.tx.ticker = formData.ticker)).map
      (fun r => r.tx)
  let holdings := calculateHoldings existingTransactions
  match holdings.find? (fun h => h.ticker = formData.ticker) with
  | none => db
  | some holding =>
    let realizedProfit := calculateRealizedProfit holding.avg_buy_price
      holding.avg_exchange_rate formData.price_per_share
      formData.exchange_rate_to_pln formData.quantity
    { db with
        closed_positions := db.closed_positions ++
          [{ user_id := userId
             ticker := formData.ticker
             asset_type := formData.asset_type
             quantity_sold := formData.quantity
             avg_buy_price_original := holding.avg_buy_price
             avg_buy_exchange_rate := holding.avg_exchange_rate
             sell_price := formData.price_per_share
             sell_exchange_rate := formData.exchange_rate_to_pln
             realized_profit_pln := realizedProfit
             closed_date := formData.transaction_date }] }

/-- addTransaction (src/src/actions/transactions.ts lines 42-82):
require an authenticated user, run the closed-position bookkeeping for
SELLs, then insert the transaction row.  The error case models the
thrown Not authenticated exception; store failures are external
collaborators and are not injected here. -/
def addTransaction (user : Option String) (db : Database)
    (formData : AddTransactionForm) : Except String (Database × Transaction) :=
  match user with
  | none => .error "Not authenticated"
  | some userId =>
    let db1 :=
      if formData.transaction_type = TxType.SELL then
        handleSellTransaction db userId formData
      else db
    let newTx := formToTransaction formData
    .ok ({ db1 with
            transactions := db1.transactions ++ [{ user_id := userId, tx := newTx }] },
          newTx)

-- ===========================================
-- Historical Time-Series Reconstructor
-- (src/src/hooks/use-portfolio-history.ts, buildPortfolioData,
-- lines 94-197; the same function appears in src/unnamed/part_007)
-- ===========================================

/-- One client-computed chart point (interface PortfolioDataPoint). -/
structure PortfolioDataPoint where
  date : ℕ
  totalCostBasis : ℚ
  totalMarketValue : ℚ
  profit : ℚ
  profitPercent : ℚ
deriving DecidableEq, Repr

/-- Per-ticker running replay state (the holdings Map values in
buildPortfolioData). -/
structure HState where
  quantity : ℚ
  costBasis : ℚ
  avgRate : ℚ
deriving DecidableEq, Repr

/-- Insertion-ordered association list standing for a JS Map keyed by
ticker. -/
abbrev TickerMap (α : Type) := List (String × α)

/-- Map.get: the value at a key, if present (first occurrence). -/
def lookupTicker {α : Type} (m : TickerMap α) (t : String) : Option α :=
  (m.find? (fun e => e.1 = t)).map (fun e => e.2)

/-- Map.set: replace the value at an existing key in place, or append a
new entry, like a JS Map. -/
def setTicker {α : Type} (m : TickerMap α) (t : String) (v : α) : TickerMap α :=
  if m.any (fun e => e.1 = t) then
    m.map (fun e => if e.1 = t then (t, v) else e)
  else m ++ [(t, v)]

/-- Keys are pairwise distinct (an invariant every JS Map has). -/
def NodupKeys {α : Type} (m : TickerMap α) : Prop :=
  (m.map (fun e => e.1)).Nodup

/-- Apply one transaction to the running holdings state
(use-portfolio-history.ts lines 126-145): a BUY adds quantity and cost
and reweights the average FX rate by the pre-transaction cost basis; a
SELL removes quantity and shrinks the cost basis by the sold
proportion. -/
def applyTx (holdings : TickerMap HState) (tx : Transaction) : TickerMap HState :=
  let existing := (lookupTicker holdings tx.ticker).getD
    { quantity := 0, costBasis := 0, avgRate := tx.exchange_rate_to_pln }
  let updated :=
    match tx.transaction_type with
    | .BUY =>
      let txCost := tx.quantity * tx.price_per_share * tx.exchange_rate_to_pln
      let quantity := existing.quantity + tx.quantity
      let costBasis := existing.costBasis + txCost
      let avgRate :=
        if 0 < costBasis then
          (existing.avgRate * (costBasis - txCost)
            + tx.exchange_rate_to_pln * txCost) / costBasis
        else tx.exchange_rate_to_pln
      { quantity := quantity, costBasis := costBasis, avgRate := avgRate }
    | .SELL =>
      let sellRatio := tx.quantity / existing.quantity
      { quantity := existing.quantity - tx.quantity
        costBasis := existing.costBasis - existing.costBasis * sellRatio
        avgRate := existing.avgRate }
  setTicker holdings tx.ticker updated

/-- Apply every transaction dated on the given day, in list order.
The source advances an index over the date-sorted transaction list and,
on each day, consumes exactly the block of transactions whose date
equals that day; because the sort is stable, that block is the
date-filtered sublist of the original list in original order. -/
def applyDay (transactions : List Transaction) (holdings : TickerMap HState)
    (day : ℕ) : TickerMap HState :=
  (transactions.filter (fun t => t.transaction_date = day)).foldl applyTx holdings

/-- The per-ticker inner loop of buildPortfolioData for one day
(lines 152-175): skip non-positive quantities, accumulate the cost
basis, pick the exact-date price (remembering it as last known) or
forward-fill from the last known price, and accumulate the market
value, falling back to cost basis when no price was ever seen.
Returns the updated last-known-price map, the total cost basis and the
total market value. -/
def dayTotals (priceHistory : String → ℕ → Option ℚ) (day : ℕ) :
    List (String × HState) → TickerMap ℚ → TickerMap ℚ × ℚ × ℚ
  | [], lastKnown => (lastKnown, 0, 0)
  | (ticker, holding) :: rest, lastKnown =>
    if holding.quantity ≤ 0 then dayTotals priceHistory day rest lastKnown
    else
      let pick : Option ℚ × TickerMap ℚ :=
        match priceHistory ticker day with
        | some p => (some p, setTicker lastKnown ticker p)
        | none => (lookupTicker lastKnown ticker, lastKnown)
      let res := dayTotals priceHistory day rest pick.2
      let contribution :=
        match pick.1 with
        | some price => price * holding.quantity * holding.avgRate
        | none => holding.costBasis
      (res.1, res.2.1 + holding.costBasis, res.2.2 + contribution)

/-- The chart point pushed for a day with the given totals
(lines 178-189). -/
def mkPoint (day : ℕ) (totalCostBasis totalMarketValue : ℚ) : PortfolioDataPoint :=
  { date := day
    totalCostBasis := totalCostBasis
    totalMarketValue := totalMarketValue
    profit := totalMarketValue - totalCostBasis
    profitPercent :=
      if 0 < totalCostBasis then
        (totalMarketValue - totalCostBasis) / totalCostBasis * 100
      else 0 }

/-- The day-by-day while loop of buildPortfolioData (lines 114-192),
recursing on the number of remaining days: apply the day's
transactions, total the day up, emit a point when the cost basis is
positive, and continue on the next day with the updated state. -/
def runDays (transactions : List Transaction) (priceHistory : String → ℕ → Option ℚ) :
    ℕ → ℕ → TickerMap HState × TickerMap ℚ → List PortfolioDataPoint
  | _, 0, _ => []
  | day, k + 1, st =>
    let m := applyDay transactions st.1 day
    let res := dayTotals priceHistory day m st.2
    let rest := runDays transactions priceHistory (day + 1) k (m, res.1)
    if 0 < res.2.1 then mkPoint day res.2.1 res.2.2 :: rest else rest

/-- Number of iterated days: the loop runs while the day is neither
after endDate nor after today, stepping one day at a time. -/
def numDays (startDate endDate today : ℕ) : ℕ :=
  min endDate today + 1 - startDate

/-- buildPortfolioData: iterate from startDate through
min endDate today with empty holdings and no known prices. -/
def buildPortfolioData (transactions : List Transaction)
    (priceHistory : String → ℕ → Option ℚ) (startDate endDate today : ℕ) :
    List PortfolioDataPoint :=
  runDays transactions priceHistory startDate (numDays startDate endDate today) ([], [])

/-- getEarliestTransactionDate (use-portfolio-history.ts lines 79-86):
the date of the first transaction after sorting ascending, i.e. the
minimum transaction date. -/
def earliestTransactionDate (transactions : List Transaction) : Option ℕ :=
  (transactions.map (fun t => t.transaction_date)).min?

-- Observers of the loop, used to state properties of the series.

/-- The state carried from one loop iteration to the next: holdings
after the day's transactions, and the last-known-price map after the
day's totals. -/
def stepState (transactions : List Transaction)
    (priceHistory : String → ℕ → Option ℚ) (day : ℕ)
    (st : TickerMap HState × TickerMap ℚ) : TickerMap HState × TickerMap ℚ :=
  let m := applyDay transactions st.1 day
  (m, (dayTotals priceHistory day m st.2).1)

/-- The loop state after n iterated days starting at the given day. -/
def iterState (transactions : List Transaction)
    (priceHistory : String → ℕ → Option ℚ) :
    ℕ → ℕ → TickerMap HState × TickerMap ℚ → TickerMap HState × TickerMap ℚ
  | _, 0, st => st
  | day, n + 1, st =>
      iterState transactions priceHistory (day + 1) n
        (stepState transactions priceHistory day st)

/-- The (cost basis, market value) pair the loop computes on a given
day when entering it with state st. -/
def dayStats (transactions : List Transaction)
    (priceHistory : String → ℕ → Option ℚ) (day : ℕ)
    (st : TickerMap HState × TickerMap ℚ) : ℚ × ℚ :=
  let m := applyDay transactions st.1 day
  ((dayTotals priceHistory day m st.2).2.1, (dayTotals priceHistory day m st.2).2.2)

/-- The replayed total cost basis on day d of the loop started at
startDate from the empty state. -/
def replayedCostBasisOn (transactions : List Transaction)
    (priceHistory : String → ℕ → Option ℚ) (startDate d : ℕ) : ℚ :=
  (dayStats transactions priceHistory d
    (iterState transactions priceHistory startDate (d - startDate) ([], []))).1

/-- The market value one ticker contributes to a day, given the
last-known-price map the loop holds when the day is totalled: zero for
a non-positive quantity, otherwise exact price or forward-filled price
times quantity times average rate, with the cost basis as a stand-in
when no price was ever seen. -/
def tickerDayValue (priceHistory : String → ℕ → Option ℚ) (day : ℕ)
    (lastKnown : TickerMap ℚ) (ticker : String) (holding : HState) : ℚ :=
  if holding.quantity ≤ 0 then 0
  else
    match
      (match priceHistory ticker day with
       | some p => some p
       | none => lookupTicker lastKnown ticker) with
    | some price => price * holding.quantity * holding.avgRate
    | none => holding.costBasis

/-- The price recorded into the last-known-price map for a ticker on a
given day, if any: present exactly when the ticker is held with
positive quantity after the day's transactions and the price history
has an entry for that day. -/
def recordedAt (priceHistory : String → ℕ → Option ℚ) (day : ℕ)
    (m : TickerMap HState) (ticker : String) : Option ℚ :=
  match lookupTicker m ticker with
  | some h => if 0 < h.quantity then priceHistory ticker day else none
  | none => none

/-- The most recent price of a ticker recorded while it was held, over
n days starting at the given day with initial holdings m and initial
cursor acc: each recorded day overwrites the accumulator. -/
def lastHeldPrice (transactions : List Transaction)
    (priceHistory : String → ℕ → Option ℚ) (ticker : String) :
    ℕ → ℕ → TickerMap HState → Option ℚ → Option ℚ
  | _, 0, _, acc => acc
  | day, n + 1, m, acc =>
    lastHeldPrice transactions priceHistory ticker (day + 1) n
      (applyDay transactions m day)
      (match recordedAt priceHistory day (applyDay transactions m day) ticker with
       | some p => some p
       | none => acc)

-- ===========================================
-- Benchmark Simulator (src/src/hooks/use-benchmark-data.ts)
-- ===========================================

structure BenchmarkDataPoint where
  date : ℕ
  benchmarkValue : ℚ
deriving DecidableEq, Repr

/-- The buyTransactions memo (use-benchmark-data.ts lines 63-69): only
the BUY transactions feed the benchmark.  The source also sorts them
ascending by date; the series below reads them through a per-day
grouping whose day sums are order-independent, so the filter alone
determines the series. -/
def buyTransactions (transactions : List Transaction) : List Transaction :=
  transactions.filter (fun t => t.transaction_type = TxType.BUY)

/-- The PLN amounts of the BUY transactions dated on a given day (the
txByDate grouping of buildBenchmarkSeries, lines 81-89). -/
def dayBuyAmountsPLN (transactions : List Transaction) (day : ℕ) : List ℚ :=
  ((buyTransactions transactions).filter (fun t => t.transaction_date = day)).map
    (fun t => t.quantity * t.price_per_share * t.exchange_rate_to_pln)

/-- The running state of the benchmark loop: accumulated phantom units
and the forward-fill price cursor. -/
structure BenchState where
  phantomUnits : ℚ
  lastKnownPrice : Option ℚ
deriving DecidableEq, Repr

/-- One day of the benchmark loop (lines 95-110 up to the emission):
move the price cursor to the exact-date price when present, then, when
the cursor holds a positive price, convert the day's BUY amounts into
phantom units at that price. -/
def benchStep (transactions : List Transaction) (priceByDate : ℕ → Option ℚ)
    (day : ℕ) (st : BenchState) : BenchState :=
  let lastKnown :=
    match priceByDate day with
    | some p => some p
    | none => st.lastKnownPrice
  let phantomUnits :=
    match lastKnown with
    | some p =>
        if 0 < p then
          (dayBuyAmountsPLN transactions day).foldl (fun u a => u + a / p)
            st.phantomUnits
        else st.phantomUnits
    | none => st.phantomUnits
  { phantomUnits := phantomUnits, lastKnownPrice := lastKnown }

/-- The emission of one day of the benchmark loop (lines 112-117): a
point is pushed when the accumulated units are positive and the price
cursor is set and nonzero (JS truthiness of lastKnownPrice). -/
def benchEmit (day : ℕ) (st : BenchState) : List BenchmarkDataPoint :=
  match st.lastKnownPrice with
  | some p =>
      if 0 < st.phantomUnits ∧ p ≠ 0 then
        [{ date := day, benchmarkValue := st.phantomUnits * p }]
      else []
  | none => []

/-- The day-by-day while loop of buildBenchmarkSeries (lines 91-120). -/
def benchLoop (transactions : List Transaction) (priceByDate : ℕ → Option ℚ) :
    ℕ → ℕ → BenchState → List BenchmarkDataPoint
  | _, 0, _ => []
  | day, k + 1, st =>
    let st1 := benchStep transactions priceByDate day st
    benchEmit day st1 ++ benchLoop transactions priceByDate (day + 1) k st1

/-- buildBenchmarkSeries (use-benchmark-data.ts lines 76-125): iterate
from startDate through min endDate today with zero units and no known
price. -/
def buildBenchmarkSeries (transactions : List Transaction)
    (priceByDate : ℕ → Option ℚ) (startDate endDate today : ℕ) :
    List BenchmarkDataPoint :=
  benchLoop transactions priceByDate startDate (numDays startDate endDate today)
    { phantomUnits := 0, lastKnownPrice := none }

/-- The benchmark loop state after n iterated days. -/
def benchStateAfter (transactions : List Transaction)
    (priceByDate : ℕ → Option ℚ) : ℕ → ℕ → BenchState → BenchState
  | _, 0, st => st
  | day, n + 1, st =>
      benchStateAfter transactions priceByDate (day + 1) n
        (benchStep transactions priceByDate day st)

-- ===========================================
-- Helper lemmas
-- ===========================================

theorem foldl_add_eq_sum {α : Type} (f : α → ℚ) :
    ∀ (l : List α) (a : ℚ), l.foldl (fun s x => s + f x) a = a + (l.map f).sum := by
  intro l
  induction l with
  | nil => intro a; simp
  | cons x xs ih => intro a; simp [ih]; ring

theorem buy_ne_sell : TxType.BUY ≠ TxType.SELL := by
  intro h
  cases h

theorem sell_ne_buy : TxType.SELL ≠ TxType.BUY := by
  intro h
  cases h

-- ===========================================
-- C4: the two-BUY aggregation scenario
-- ===========================================

def c4Tx1 : Transaction :=
  { ticker := "AAPL", asset_type := "STOCK", asset_name := "Apple"
    transaction_type := TxType.BUY, quantity := 10, price_per_share := 100
    currency := "USD", exchange_rate_to_pln := 4, transaction_date := 1 }

def c4Tx2 : Transaction :=
  { ticker := "AAPL", asset_type := "STOCK", asset_name := "Apple"
    transaction_type := TxType.BUY, quantity := 5, price_per_share := 120
    currency := "USD", exchange_rate_to_pln := 41/10, transaction_date := 2 }

def c4Holding : Holding :=
  { ticker := "AAPL", asset_name := "Apple", asset_type := "STOCK"
    total_quantity := 15, avg_buy_price := 320/3, original_currency := "USD"
    avg_exchange_rate := 121/30, total_invested_pln := 6460
    transactions := [c4Tx2, c4Tx1] }

/-- C4: on the transaction list [BUY 10 at 100 with rate 4.0, BUY 5 at
120 with rate 4.1] of one ticker, the Holdings Aggregator returns
exactly one holding, with total quantity 15, weighted-average buy price
(10·100+5·120)/15 and total invested 10·100·4.0 + 5·120·4.1 = 6460 PLN,
exactly (hence within the claimed 1e-9 tolerance). -/
theorem claim_C4_two_buy_aggregation_scenario :
    calculateHoldings [c4Tx1, c4Tx2] = [c4Holding] ∧
    c4Holding.total_quantity = 15 ∧
    c4Holding.avg_buy_price = (10 * 100 + 5 * 120) / 15 ∧
    c4Holding.total_invested_pln = 10 * 100 * 4 + 5 * 120 * (41/10) := by
  refine ⟨?_, ?_, ?_, ?_⟩
  · norm_num [calculateHoldings, groupByTicker, calculateSingleHolding, c4Tx1, c4Tx2,
      c4Holding, sortByDateDesc, insertByDateDesc, List.filterMap_cons, List.filter_cons,
      buy_ne_sell, sell_ne_buy]
  · norm_num [c4Holding]
  · norm_num [c4Holding]
  · norm_num [c4Holding]

-- ===========================================
-- C10: degenerate inputs of the price-anomaly detector
-- ===========================================

/-- C10: whenever the user price or the quote price is absent, zero or
negative, detectPriceMultiplier returns the no-anomaly result
(detected = false, suggestedMultiplier = 1, ratio = 0) without reaching
the ratio computation. -/
theorem claim_C10_degenerate_prices_no_anomaly
    (userPrice yahooPrice : Option ℚ) (yahooCurrency : Option String)
    (hdeg : userPrice = none ∨ yahooPrice = none ∨
      (∃ u, userPrice = some u ∧ u ≤ 0) ∨ (∃ y, yahooPrice = some y ∧ y ≤ 0)) :
    detectPriceMultiplier userPrice yahooPrice yahooCurrency = noAnomaly := by
  rcases hdeg with h | h | ⟨u, hu, hu0⟩ | ⟨y, hy, hy0⟩
  · simp [h, detectPriceMultiplier]
  · cases userPrice <;> simp [h, detectPriceMultiplier]
  · cases yahooPrice with
    | none => simp [hu, detectPriceMultiplier]
    | some y => simp [hu, detectPriceMultiplier, decide_eq_true_iff, hu0]
  · cases userPrice with
    | none => simp [hy, detectPriceMultiplier]
    | some u =>
        simp only [hy, detectPriceMultiplier]
        have : (decide (u ≤ 0) || decide (y ≤ 0)) = true := by
          simp [hy0]
        simp [this]

/-- Witness for C10: a zero quote price yields the no-anomaly result. -/
theorem claim_C10_witness :
    detectPriceMultiplier (some 150) (some 0) (some "USD") = noAnomaly :=
  claim_C10_degenerate_prices_no_anomaly (some 150) (some 0) (some "USD")
    (Or.inr (Or.inr (Or.inr ⟨0, rfl, le_refl 0⟩)))

-- ===========================================
-- C2: the unrealized-return percent of the live merge
-- ===========================================

/-- A BUY of one free share (price 0): a legitimate holding whose cost
basis is zero. -/
def c2Tx : Transaction :=
  { ticker := "FREE", asset_type := "STOCK", asset_name := "Free"
    transaction_type := TxType.BUY, quantity := 1, price_per_share := 0
    currency := "PLN", exchange_rate_to_pln := 1, transaction_date := 0 }

def c2Holding : Holding :=
  { ticker := "FREE", asset_name := "Free", asset_type := "STOCK"
    total_quantity := 1, avg_buy_price := 0, original_currency := "PLN"
    avg_exchange_rate := 1, total_invested_pln := 0
    transactions := [c2Tx] }

/-- Counterexample to C2: the source computes the percent with an
unguarded division.  On the holding produced by a single free-share BUY
(cost basis 0), merging a live price of 0 yields NaN, and merging a
positive live price yields Infinity; neither is 0 nor undefined. -/
theorem claim_C2_counterexample :
    calculateHoldings [c2Tx] = [c2Holding] ∧
    c2Holding.total_invested_pln = 0 ∧
    (updateHoldingWithLiveData c2Holding 0 1 0).total_return_percent = some JsNum.nan ∧
    (updateHoldingWithLiveData c2Holding 100 1 0).total_return_percent = some JsNum.posInf ∧
    (updateHoldingWithLiveData c2Holding 0 1 0).total_return_percent ≠ some (JsNum.num 0) ∧
    (updateHoldingWithLiveData c2Holding 0 1 0).total_return_percent ≠ none := by
  refine ⟨?_, by norm_num [c2Holding], ?_, ?_, ?_, ?_⟩
  · norm_num [calculateHoldings, groupByTicker, calculateSingleHolding, c2Tx,
      c2Holding, sortByDateDesc, insertByDateDesc, List.filterMap_cons, List.filter_cons,
      buy_ne_sell, sell_ne_buy]
  · norm_num [updateHoldingWithLiveData, c2Holding, jsDiv, jsMul]
  · norm_num [updateHoldingWithLiveData, c2Holding, jsDiv, jsMul]
  · have h : (updateHoldingWithLiveData c2Holding 0 1 0).total_return_percent
        = some JsNum.nan := by norm_num [updateHoldingWithLiveData, c2Holding, jsDiv, jsMul]
    rw [h]
    decide
  · have h : (updateHoldingWithLiveData c2Holding 0 1 0).total_return_percent
        = some JsNum.nan := by norm_num [updateHoldingWithLiveData, c2Holding, jsDiv, jsMul]
    rw [h]
    decide

/-- C2 (amended): merging a holding with live data computes the
unrealized-return percent as (currentValue - costBasis) / costBasis
· 100 whenever the cost basis is nonzero; when the cost basis is zero
the division is unguarded, so the percent surfaces NaN when the current
value is zero and a signed Infinity otherwise. -/
theorem claim_C2_live_merge_return_percent (holding : Holding)
    (currentPrice currentExchangeRate dayChangePercent : ℚ) :
    (holding.total_invested_pln ≠ 0 →
      (updateHoldingWithLiveData holding currentPrice currentExchangeRate
        dayChangePercent).total_return_percent
        = some (JsNum.num
            ((holding.total_quantity * currentPrice * currentExchangeRate
              - holding.total_invested_pln) / holding.total_invested_pln * 100)))
    ∧ (holding.total_invested_pln = 0 →
        holding.total_quantity * currentPrice * currentExchangeRate = 0 →
        (updateHoldingWithLiveData holding currentPrice currentExchangeRate
          dayChangePercent).total_return_percent = some JsNum.nan)
    ∧ (holding.total_invested_pln = 0 →
        0 < holding.total_quantity * currentPrice * currentExchangeRate →
        (updateHoldingWithLiveData holding currentPrice currentExchangeRate
          dayChangePercent).total_return_percent = some JsNum.posInf)
    ∧ (holding.total_invested_pln = 0 →
        holding.total_quantity * currentPrice * currentExchangeRate < 0 →
        (updateHoldingWithLiveData holding currentPrice currentExchangeRate
          dayChangePercent).total_return_percent = some JsNum.negInf) := by
  refine ⟨?_, ?_, ?_, ?_⟩
  · intro hinv
    simp [updateHoldingWithLiveData, jsDiv, jsMul, hinv]
  · intro hinv hcv
    simp [updateHoldingWithLiveData, jsDiv, jsMul, hinv, hcv]
  · intro hinv hcv
    simp [updateHoldingWithLiveData, jsDiv, jsMul, hinv, hcv, not_lt.mpr (le_of_lt hcv)]
  · intro hinv hcv
    simp [updateHoldingWithLiveData, jsDiv, jsMul, hinv, hcv, not_lt.mpr (le_of_lt hcv),
      asymm hcv]

/-- Witness for the amended C2: a nonzero cost basis gives the exact
percent formula. -/
theorem claim_C2_witness :
    (updateHoldingWithLiveData c4Holding 180 (42/10) 1).total_return_percent
      = some (JsNum.num ((15 * 180 * (42/10) - 6460) / 6460 * 100)) := by
  have h := (claim_C2_live_merge_return_percent c4Holding 180 (42/10) 1).1
    (by norm_num [c4Holding])
  simpa [c4Holding] using h

-- ===========================================
-- C1: total return = unrealized + realized
-- ===========================================

/-- The value a holding contributes to totalValuePLN: live value when
present, cost basis otherwise. -/
def holdingLiveValue (h : Holding) : ℚ :=
  match h.current_value_pln with
  | some cv => cv
  | none => h.total_invested_pln

/-- The value a holding contributes to previousDayValuePLN. -/
def holdingPrevValue (h : Holding) : ℚ :=
  match h.current_value_pln with
  | some cv =>
      match h.day_change_percent with
      | some dcp => cv / (1 + dcp / 100)
      | none => cv
  | none => h.total_invested_pln

theorem summary_acc (holdings : List Holding) :
    ∀ a b c : ℚ,
      holdings.foldl
        (fun (acc : ℚ × ℚ × ℚ) holding =>
          let totalInvestedPLN := acc.2.1 + holding.total_invested_pln
          match holding.current_value_pln with
          | some cv =>
              let totalValuePLN := acc.1 + cv
              let previousDayValuePLN :=
                match holding.day_change_percent with
                | some dcp => acc.2.2 + cv / (1 + dcp / 100)
                | none => acc.2.2 + cv
              (totalValuePLN, totalInvestedPLN, previousDayValuePLN)
          | none =>
              (acc.1 + holding.total_invested_pln, totalInvestedPLN,
                acc.2.2 + holding.total_invested_pln))
        (a, b, c)
      = (a + (holdings.map holdingLiveValue).sum,
         b + (holdings.map (fun h => h.total_invested_pln)).sum,
         c + (holdings.map holdingPrevValue).sum) := by
  induction holdings with
  | nil => intro a b c; simp
  | cons h hs ih =>
      intro a b c
      rcases hcv : h.current_value_pln with _ | cv
      · simp only [List.foldl_cons, hcv, List.map_cons, List.sum_cons]
        rw [ih]
        simp only [holdingLiveValue, holdingPrevValue, hcv]
        refine Prod.ext ?_ (Prod.ext ?_ ?_) <;> simp <;> ring
      · rcases hdcp : h.day_change_percent with _ | dcp
        · simp only [List.foldl_cons, hcv, hdcp, List.map_cons, List.sum_cons]
          rw [ih]
          simp only [holdingLiveValue, holdingPrevValue, hcv, hdcp]
          refine Prod.ext ?_ (Prod.ext ?_ ?_) <;> simp <;> ring
        · simp only [List.foldl_cons, hcv, hdcp, List.map_cons, List.sum_cons]
          rw [ih]
          simp only [holdingLiveValue, holdingPrevValue, hcv, hdcp]
          refine Prod.ext ?_ (Prod.ext ?_ ?_) <;> simp <;> ring

/-- C1: for live-merged holdings (current value present on each) and
any closed positions, the summary total return is the unrealized
return (total current value minus total cost basis over the holdings)
plus the sum of realized profit over the closed positions. -/
theorem claim_C1_total_return_unrealized_plus_realized
    (holdings : List Holding) (closedPositions : List ClosedPosition)
    (hlive : ∀ h ∈ holdings, h.current_value_pln.isSome) :
    (calculatePortfolioSummary holdings closedPositions).totalReturnPLN
      = ((holdings.map (fun h => h.current_value_pln.getD 0)).sum
          - (holdings.map (fun h => h.total_invested_pln)).sum)
        + (closedPositions.map (fun p => p.realized_profit_pln)).sum := by
  have hmap : holdings.map holdingLiveValue
      = holdings.map (fun h => h.current_value_pln.getD 0) := by
    refine List.map_congr_left ?_
    intro h hmem
    have := hlive h hmem
    rcases hcv : h.current_value_pln with _ | cv
    · rw [hcv] at this; simp at this
    · simp [holdingLiveValue, hcv]
  simp only [calculatePortfolioSummary]
  rw [summary_acc, foldl_add_eq_sum (fun p : ClosedPosition => p.realized_profit_pln)]
  simp only [hmap]
  ring

/-- Witness for C1: one live-merged holding and one closed position. -/
def c1Holding : Holding :=
  { c4Holding with
      current_price := some 180
      current_exchange_rate := some (42/10)
      current_value_pln := some 11340
      day_change_percent := some 1
      total_return_pln := some 4880
      total_return_percent := some (JsNum.num (4880 / 6460 * 100)) }

def c1Closed : ClosedPosition :=
  { user_id := "u1", ticker := "MSFT", asset_type := "STOCK"
    quantity_sold := 5, avg_buy_price_original := 100
    avg_buy_exchange_rate := 4, sell_price := 150
    sell_exchange_rate := 42/10, realized_profit_pln := 1150
    closed_date := 10 }

theorem claim_C1_witness :
    (calculatePortfolioSummary [c1Holding] [c1Closed]).totalReturnPLN
      = (([c1Holding].map (fun h => h.current_value_pln.getD 0)).sum
          - ([c1Holding].map (fun h => h.total_invested_pln)).sum)
        + ([c1Closed].map (fun p => p.realized_profit_pln)).sum := by
  refine claim_C1_total_return_unrealized_plus_realized [c1Holding] [c1Closed] ?_
  intro h hmem
  have hh : h = c1Holding := by simpa using hmem
  subst hh
  simp [c1Holding]

-- ===========================================
-- C8: a SELL with no prior holding still inserts
-- ===========================================

/-- C8: when the form is a SELL and the holdings rebuilt from the
pre-existing transactions of this user and ticker contain no holding
for the ticker, addTransaction succeeds, appends exactly the SELL
transaction row, creates no closed-position record, and raises no
error. -/
theorem claim_C8_sell_without_holding_inserts
    (db : Database) (u : String) (formData : AddTransactionForm)
    (hsell : formData.transaction_type = TxType.SELL)
    (hnoh : (calculateHoldings
        ((db.transactions.filter
          (fun r => r.user_id = u && r.tx.ticker = formData.ticker)).map
          (fun r => r.tx))).find? (fun h => h.ticker = formData.ticker) = none) :
    addTransaction (some u) db formData
      = Except.ok
          ({ transactions :=
              db.transactions ++ [{ user_id := u, tx := formToTransaction formData }],
             closed_positions := db.closed_positions },
            formToTransaction formData) := by
  simp [addTransaction, hsell, handleSellTransaction, hnoh]

def c8Form : AddTransactionForm :=
  { ticker := "TSLA", asset_type := "STOCK", asset_name := "Tesla"
    transaction_type := TxType.SELL, quantity := 3, price_per_share := 200
    currency := "USD", exchange_rate_to_pln := 4, transaction_date := 5 }

/-- Witness for C8: selling into an empty database records the SELL and
nothing else. -/
theorem claim_C8_witness :
    addTransaction (some "u1") { transactions := [], closed_positions := [] } c8Form
      = Except.ok
          ({ transactions := [{ user_id := "u1", tx := formToTransaction c8Form }],
             closed_positions := [] }, formToTransaction c8Form) := by
  have h := claim_C8_sell_without_holding_inserts
    { transactions := [], closed_positions := [] } "u1" c8Form rfl (by rfl)
  simpa using h

-- ===========================================
-- C9: a ticker group with no BUYs emits nothing
-- ===========================================

theorem calculateSingleHolding_none_of_all_sell (ticker : String)
    (txs : List Transaction)
    (hall : ∀ t ∈ txs, t.transaction_type = TxType.SELL ∧ 0 < t.quantity) :
    calculateSingleHolding ticker txs = none := by
  cases txs with
  | nil => rfl
  | cons t0 rest =>
    have hbuy : (t0 :: rest).filter (fun t => t.transaction_type = TxType.BUY) = [] := by
      rw [List.filter_eq_nil_iff]
      intro t ht
      simp [(hall t ht).1, sell_ne_buy]
    have hsellf : (t0 :: rest).filter (fun t => t.transaction_type = TxType.SELL)
        = t0 :: rest := by
      rw [List.filter_eq_self]
      intro t ht
      simp [(hall t ht).1]
    have hpos : 0 < ((t0 :: rest).map (fun t => t.quantity)).sum := by
      refine List.sum_pos _ ?_ (by simp)
      intro q hq
      obtain ⟨t, ht, rfl⟩ := List.mem_map.mp hq
      exact (hall t ht).2
    simp only [calculateSingleHolding, hbuy, hsellf]
    rw [if_pos]
    simp only [List.map_nil, List.sum_nil]
    linarith

/-- Every group built by groupByTicker has a nonempty transaction list
whose elements all come from the input list. -/
theorem groupByTicker_groups (P : Transaction → Prop) :
    ∀ (txs : List Transaction) (acc : List (String × List Transaction)),
      (∀ g ∈ acc, g.2 ≠ [] ∧ ∀ t ∈ g.2, P t) → (∀ t ∈ txs, P t) →
      ∀ g ∈ txs.foldl
        (fun grouped tx =>
          if grouped.any (fun g => g.1 = tx.ticker) then
            grouped.map (fun g => if g.1 = tx.ticker then (g.1, g.2 ++ [tx]) else g)
          else
            grouped ++ [(tx.ticker, [tx])]) acc,
        g.2 ≠ [] ∧ ∀ t ∈ g.2, P t := by
  intro txs
  induction txs with
  | nil => intro acc hacc _ g hg; exact hacc g hg
  | cons tx rest ih =>
      intro acc hacc hP g hg
      simp only [List.foldl_cons] at hg
      refine ih _ ?_ (fun t ht => hP t (List.mem_cons_of_mem _ ht)) g hg
      intro g' hg'
      by_cases hin : acc.any (fun g => g.1 = tx.ticker)
      · rw [if_pos hin] at hg'
        obtain ⟨g0, hg0, hmap⟩ := List.mem_map.mp hg'
        by_cases hk : g0.1 = tx.ticker
        · rw [if_pos hk] at hmap
          subst hmap
          refine ⟨by simp, ?_⟩
          intro t ht
          rcases List.mem_append.mp ht with ht | ht
          · exact (hacc g0 hg0).2 t ht
          · rw [List.mem_singleton.mp ht]
            exact hP tx (List.mem_cons_self tx rest)
        · rw [if_neg hk] at hmap
          subst hmap
          exact hacc g0 hg0
      · rw [if_neg hin] at hg'
        rcases List.mem_append.mp hg' with hg' | hg'
        · exact hacc g' hg'
        · rw [List.mem_singleton.mp hg']
          exact ⟨by simp, by
            intro t ht
            rw [List.mem_singleton.mp ht]
            exact hP tx (List.mem_cons_self tx rest)⟩

/-- C9: a ticker group consisting only of SELL transactions with
positive quantities produces no holding: calculateSingleHolding
returns before any division by the zero totalBought, and the Holdings
Aggregator emits nothing at all. -/
theorem claim_C9_no_buys_holding_omitted (ticker : String)
    (txs : List Transaction) (hne : txs ≠ [])
    (hall : ∀ t ∈ txs, t.transaction_type = TxType.SELL ∧ 0 < t.quantity) :
    calculateSingleHolding ticker txs = none ∧ calculateHoldings txs = [] := by
  refine ⟨calculateSingleHolding_none_of_all_sell ticker txs hall, ?_⟩
  rw [calculateHoldings, List.filterMap_eq_nil_iff]
  intro g hg
  have hgroups := groupByTicker_groups
    (fun t => t.transaction_type = TxType.SELL ∧ 0 < t.quantity) txs [] (by simp)
    hall g hg
  rw [calculateSingleHolding_none_of_all_sell g.1 g.2 hgroups.2]

/-- Witness for C9: a lone SELL yields no holding. -/
theorem claim_C9_witness :
    calculateSingleHolding "TSLA" [formToTransaction c8Form] = none ∧
    calculateHoldings [formToTransaction c8Form] = [] := by
  refine claim_C9_no_buys_holding_omitted "TSLA" [formToTransaction c8Form]
    (by simp) ?_
  intro t ht
  have : t = formToTransaction c8Form := by simpa using ht
  subst this
  exact ⟨rfl, by norm_num [formToTransaction, c8Form]⟩

-- ===========================================
-- C5: selling half the position halves the cost basis
-- ===========================================

/-- Total BUY quantity of a transaction list (the totalBought of
calculateSingleHolding). -/
def totalBoughtQty (txs : List Transaction) : ℚ :=
  ((txs.filter (fun t => t.transaction_type = TxType.BUY)).map (fun t => t.quantity)).sum

/-- Total SELL quantity of a transaction list (the totalSold of
calculateSingleHolding). -/
def totalSoldQty (txs : List Transaction) : ℚ :=
  ((txs.filter (fun t => t.transaction_type = TxType.SELL)).map (fun t => t.quantity)).sum

/-- Full BUY cost basis in original currency (the totalCostOriginal of
calculateSingleHolding). -/
def totalBuyCostOriginal (txs : List Transaction) : ℚ :=
  ((txs.filter (fun t => t.transaction_type = TxType.BUY)).map
    (fun t => t.quantity * t.price_per_share)).sum

/-- Full BUY cost basis in PLN (the totalCostPLN of
calculateSingleHolding). -/
def totalBuyCostPLN (txs : List Transaction) : ℚ :=
  ((txs.filter (fun t => t.transaction_type = TxType.BUY)).map
    (fun t => t.quantity * t.price_per_share * t.exchange_rate_to_pln)).sum

/-- Quantity-weighted FX rate sum over BUYs (the
weightedExchangeRateSum of calculateSingleHolding). -/
def totalWeightedRate (txs : List Transaction) : ℚ :=
  ((txs.filter (fun t => t.transaction_type = TxType.BUY)).map
    (fun t => t.exchange_rate_to_pln * t.quantity)).sum

/-- Closed form of calculateSingleHolding on a nonempty group whose net
quantity is positive. -/
theorem calculateSingleHolding_eq (ticker : String) (t0 : Transaction)
    (rest : List Transaction)
    (h : 0 < totalBoughtQty (t0 :: rest) - totalSoldQty (t0 :: rest)) :
    calculateSingleHolding ticker (t0 :: rest) = some
      { ticker := ticker
        asset_name := t0.asset_name
        asset_type := t0.asset_type
        total_quantity := totalBoughtQty (t0 :: rest) - totalSoldQty (t0 :: rest)
        avg_buy_price := totalBuyCostOriginal (t0 :: rest) / totalBoughtQty (t0 :: rest)
        original_currency := t0.currency
        avg_exchange_rate := totalWeightedRate (t0 :: rest) / totalBoughtQty (t0 :: rest)
        total_invested_pln := totalBuyCostPLN (t0 :: rest) *
          ((totalBoughtQty (t0 :: rest) - totalSoldQty (t0 :: rest))
            / totalBoughtQty (t0 :: rest))
        transactions := sortByDateDesc (t0 :: rest) } := by
  simp only [totalBoughtQty, totalSoldQty] at h
  simp only [calculateSingleHolding, totalBoughtQty, totalSoldQty, totalBuyCostOriginal,
    totalBuyCostPLN, totalWeightedRate]
  rw [if_neg (not_le.mpr h)]

/-- C5: whenever the SELL quantities of a ticker group total exactly
half of its BUY quantities (all quantities positive, group nonempty),
the holding exists and its remaining PLN cost basis is exactly half of
the full BUY cost basis, whatever the BUY composition. -/
theorem claim_C5_half_sell_halves_cost_basis (ticker : String)
    (txs : List Transaction) (hne : txs ≠ [])
    (hpos : ∀ t ∈ txs, 0 < t.quantity)
    (hhalf : totalSoldQty txs = totalBoughtQty txs / 2) :
    ∃ h, calculateSingleHolding ticker txs = some h ∧
      h.total_invested_pln = totalBuyCostPLN txs / 2 := by
  obtain ⟨t0, rest, rfl⟩ : ∃ t0 rest, txs = t0 :: rest := by
    cases txs with
    | nil => exact absurd rfl hne
    | cons a l => exact ⟨a, l, rfl⟩
  have hB : 0 < totalBoughtQty (t0 :: rest) := by
    rcases hb : (t0 :: rest).filter (fun t => t.transaction_type = TxType.BUY) with _ | ⟨b, bs⟩
    · exfalso
      have hnob : ∀ t ∈ t0 :: rest, ¬ (t.transaction_type = TxType.BUY) := by
        intro t ht
        have := List.filter_eq_nil_iff.mp hb t ht
        simpa using this
      have hsellall : (t0 :: rest).filter (fun t => t.transaction_type = TxType.SELL)
          = t0 :: rest := by
        rw [List.filter_eq_self]
        intro t ht
        cases htt : t.transaction_type with
        | BUY => exact absurd htt (by simpa [htt] using hnob t ht)
        | SELL => simp
      have hS : 0 < totalSoldQty (t0 :: rest) := by
        rw [totalSoldQty, hsellall]
        refine List.sum_pos _ ?_ (by simp)
        intro q hq
        obtain ⟨t, ht, rfl⟩ := List.mem_map.mp hq
        exact hpos t ht
      have hB0 : totalBoughtQty (t0 :: rest) = 0 := by
        rw [totalBoughtQty, hb]
        simp
      rw [hhalf, hB0] at hS
      norm_num at hS
    · rw [totalBoughtQty, hb]
      refine List.sum_pos _ ?_ (by simp)
      intro q hq
      obtain ⟨t, ht, rfl⟩ := List.mem_map.mp hq
      have : t ∈ t0 :: rest := List.mem_of_mem_filter (by rw [hb]; exact ht)
      exact hpos t this
  have hcur : 0 < totalBoughtQty (t0 :: rest) - totalSoldQty (t0 :: rest) := by
    rw [hhalf]
    linarith
  refine ⟨_, calculateSingleHolding_eq ticker t0 rest hcur, ?_⟩
  show totalBuyCostPLN (t0 :: rest) *
      ((totalBoughtQty (t0 :: rest) - totalSoldQty (t0 :: rest))
        / totalBoughtQty (t0 :: rest))
    = totalBuyCostPLN (t0 :: rest) / 2
  rw [hhalf]
  have hB0 : totalBoughtQty (t0 :: rest) ≠ 0 := ne_of_gt hB
  field_simp
  ring

def c5Sell : Transaction :=
  { ticker := "AAPL", asset_type := "STOCK", asset_name := "Apple"
    transaction_type := TxType.SELL, quantity := 5, price_per_share := 150
    currency := "USD", exchange_rate_to_pln := 42/10, transaction_date := 3 }

/-- Witness for C5: buying 10 and selling 5 leaves half of the 4000 PLN
cost basis. -/
theorem claim_C5_witness :
    ∃ h, calculateSingleHolding "AAPL" [c4Tx1, c5Sell] = some h ∧
      h.total_invested_pln = totalBuyCostPLN [c4Tx1, c5Sell] / 2 := by
  refine claim_C5_half_sell_halves_cost_basis "AAPL" [c4Tx1, c5Sell] (by simp) ?_ ?_
  · intro t ht
    rcases List.mem_cons.mp ht with rfl | ht
    · norm_num [c4Tx1]
    · have : t = c5Sell := by simpa using ht
      subst this
      norm_num [c5Sell]
  · norm_num [totalSoldQty, totalBoughtQty, List.filter_cons, c4Tx1, c5Sell,
      buy_ne_sell, sell_ne_buy]

-- ===========================================
-- C6: the benchmark is driven by BUYs only
-- ===========================================

theorem benchStep_congr (txs1 txs2 : List Transaction) (priceByDate : ℕ → Option ℚ)
    (hamts : ∀ d, dayBuyAmountsPLN txs1 d = dayBuyAmountsPLN txs2 d) (day : ℕ)
    (st : BenchState) :
    benchStep txs1 priceByDate day st = benchStep txs2 priceByDate day st := by
  simp only [benchStep, hamts day]

theorem benchLoop_congr (txs1 txs2 : List Transaction) (priceByDate : ℕ → Option ℚ)
    (hamts : ∀ d, dayBuyAmountsPLN txs1 d = dayBuyAmountsPLN txs2 d) :
    ∀ (k day : ℕ) (st : BenchState),
      benchLoop txs1 priceByDate day k st = benchLoop txs2 priceByDate day k st := by
  intro k
  induction k with
  | zero => intro day st; rfl
  | succ k ih =>
      intro day st
      simp only [benchLoop, benchStep_congr txs1 txs2 priceByDate hamts day st, ih]

/-- Removing a SELL transaction leaves every per-day BUY amount list
unchanged. -/
theorem dayBuyAmountsPLN_erase_sell (l1 l2 : List Transaction) (s : Transaction)
    (hs : s.transaction_type = TxType.SELL) (d : ℕ) :
    dayBuyAmountsPLN (l1 ++ s :: l2) d = dayBuyAmountsPLN (l1 ++ l2) d := by
  simp [dayBuyAmountsPLN, buyTransactions, List.filter_append, List.filter_cons, hs,
    sell_ne_buy]

def c6Tx : Transaction :=
  { ticker := "VOO", asset_type := "ETF", asset_name := "Index"
    transaction_type := TxType.BUY, quantity := 10, price_per_share := 100
    currency := "PLN", exchange_rate_to_pln := 1, transaction_date := 1 }

def c6Ph : ℕ → Option ℚ := fun d =>
  if d = 1 then some 500 else if d = 10 then some 550 else none

/-- C6: the benchmark series is computed from BUY transactions only -
inserting or deleting any SELL anywhere in the transaction list leaves
the series unchanged - and on the concrete scenario of one BUY worth
1000 PLN on day 1 at benchmark price 500, the phantom units after day 1
are 2, and the point emitted on day 10, where the forward-filled
benchmark price is 550, has value 2 · 550 = 1100. -/
theorem claim_C6_benchmark_ignores_sells :
    (∀ (priceByDate : ℕ → Option ℚ) (startDate endDate today : ℕ)
       (l1 l2 : List Transaction) (s : Transaction),
       s.transaction_type = TxType.SELL →
       buildBenchmarkSeries (l1 ++ s :: l2) priceByDate startDate endDate today
         = buildBenchmarkSeries (l1 ++ l2) priceByDate startDate endDate today)
    ∧ (benchStateAfter [c6Tx] c6Ph 1 1
        { phantomUnits := 0, lastKnownPrice := none }).phantomUnits = 2
    ∧ { date := 10, benchmarkValue := 2 * 550 }
        ∈ buildBenchmarkSeries [c6Tx] c6Ph 1 10 10 := by
  refine ⟨?_, ?_, ?_⟩
  · intro priceByDate startDate endDate today l1 l2 s hs
    exact benchLoop_congr _ _ priceByDate
      (dayBuyAmountsPLN_erase_sell l1 l2 s hs) _ _ _
  · norm_num [benchStateAfter, benchStep, dayBuyAmountsPLN, buyTransactions, c6Tx,
      c6Ph, List.filter_cons]
  · norm_num [buildBenchmarkSeries, numDays, benchLoop, benchStep, benchEmit,
      dayBuyAmountsPLN, buyTransactions, c6Tx, c6Ph, List.filter_cons]

/-- Witness for C6: dropping a concrete SELL from a concrete list does
not change the series. -/
theorem claim_C6_witness :
    buildBenchmarkSeries [c6Tx, c5Sell] c6Ph 1 10 10
      = buildBenchmarkSeries [c6Tx] c6Ph 1 10 10 := by
  have h := claim_C6_benchmark_ignores_sells.1 c6Ph 1 10 10 [c6Tx] [] c5Sell rfl
  simpa using h

-- ===========================================
-- TickerMap lemmas (JS Map behavior)
-- ===========================================

theorem lookupTicker_cons {α : Type} (u : String) (v : α) (m : TickerMap α)
    (t : String) :
    lookupTicker ((u, v) :: m) t = if u = t then some v else lookupTicker m t := by
  by_cases h : u = t
  · simp [lookupTicker, List.find?_cons_of_pos, h]
  · simp [lookupTicker, List.find?_cons_of_neg, h]

theorem lookupTicker_none_of_not_mem {α : Type} (t : String) :
    ∀ (m : TickerMap α), t ∉ m.map Prod.fst → lookupTicker m t = none := by
  intro m
  induction m with
  | nil => intro _; rfl
  | cons e rest ih =>
      intro h
      obtain ⟨u, v⟩ := e
      simp only [List.map_cons, List.mem_cons, not_or] at h
      rw [lookupTicker_cons, if_neg (fun he => h.1 he.symm)]
      exact ih h.2

theorem lookupTicker_replace_self {α : Type} (t : String) (v : α) :
    ∀ (m : TickerMap α), m.any (fun e => e.1 = t) →
      lookupTicker (m.map (fun e => if e.1 = t then (t, v) else e)) t = some v := by
  intro m
  induction m with
  | nil => intro h; simp at h
  | cons e rest ih =>
      intro h
      obtain ⟨u, w⟩ := e
      by_cases hu : u = t
      · simp only [List.map_cons, hu, if_pos]
        rw [lookupTicker_cons, if_pos rfl]
      · have hrest : rest.any (fun e => e.1 = t) := by
          simpa [hu] using h
        simp only [List.map_cons]
        rw [if_neg (by simpa using hu), lookupTicker_cons, if_neg hu]
        exact ih hrest

theorem lookupTicker_append_self {α : Type} (t : String) (v : α) :
    ∀ (m : TickerMap α), ¬ m.any (fun e => e.1 = t) →
      lookupTicker (m ++ [(t, v)]) t = some v := by
  intro m
  induction m with
  | nil => intro _; rw [List.nil_append, lookupTicker_cons, if_pos rfl]
  | cons e rest ih =>
      intro h
      obtain ⟨u, w⟩ := e
      simp only [List.any_cons, Bool.or_eq_true, not_or] at h
      rw [List.cons_append, lookupTicker_cons, if_neg (by simpa using h.1)]
      exact ih (by simpa using h.2)

theorem lookupTicker_set_self {α : Type} (m : TickerMap α) (t : String) (v : α) :
    lookupTicker (setTicker m t v) t = some v := by
  unfold setTicker
  by_cases hin : m.any (fun e => e.1 = t)
  · rw [if_pos hin]
    exact lookupTicker_replace_self t v m hin
  · rw [if_neg hin]
    exact lookupTicker_append_self t v m hin

theorem lookupTicker_set_ne {α : Type} (t u : String) (v : α) (hne : u ≠ t) :
    ∀ (m : TickerMap α), lookupTicker (setTicker m t v) u = lookupTicker m u := by
  have hrepl : ∀ (m : TickerMap α),
      lookupTicker (m.map (fun e => if e.1 = t then (t, v) else e)) u
        = lookupTicker m u := by
    intro m
    induction m with
    | nil => rfl
    | cons e rest ih =>
        obtain ⟨k, w⟩ := e
        by_cases hk : k = t
        · subst hk
          simp only [List.map_cons, if_pos rfl]
          rw [lookupTicker_cons, lookupTicker_cons,
            if_neg (fun ht => hne ht.symm), if_neg (fun ht => hne ht.symm)]
          exact ih
        · simp only [List.map_cons]
          rw [if_neg (by simpa using hk), lookupTicker_cons, lookupTicker_cons]
          by_cases hku : k = u
          · rw [if_pos hku, if_pos hku]
          · rw [if_neg hku, if_neg hku]
            exact ih
  have happ : ∀ (m : TickerMap α),
      lookupTicker (m ++ [(t, v)]) u = lookupTicker m u := by
    intro m
    induction m with
    | nil =>
        rw [List.nil_append, lookupTicker_cons, if_neg (fun ht => hne ht.symm)]
    | cons e rest ih =>
        obtain ⟨k, w⟩ := e
        rw [List.cons_append, lookupTicker_cons, lookupTicker_cons]
        by_cases hku : k = u
        · rw [if_pos hku, if_pos hku]
        · rw [if_neg hku, if_neg hku]
          exact ih
  intro m
  unfold setTicker
  by_cases hin : m.any (fun e => e.1 = t)
  · rw [if_pos hin]; exact hrepl m
  · rw [if_neg hin]; exact happ m

theorem keys_setTicker {α : Type} (m : TickerMap α) (t : String) (v : α) :
    (setTicker m t v).map Prod.fst
      = if m.any (fun e => e.1 = t) then m.map Prod.fst
        else m.map Prod.fst ++ [t] := by
  unfold setTicker
  by_cases hin : m.any (fun e => e.1 = t)
  · rw [if_pos hin, if_pos hin, List.map_map]
    refine List.map_congr_left ?_
    intro e _
    by_cases he : e.1 = t
    · simp [he]
    · simp [he]
  · rw [if_neg hin, if_neg hin, List.map_append]
    rfl

theorem nodupKeys_setTicker {α : Type} (m : TickerMap α) (t : String) (v : α)
    (h : NodupKeys m) : NodupKeys (setTicker m t v) := by
  unfold NodupKeys at *
  rw [keys_setTicker]
  by_cases hin : m.any (fun e => e.1 = t)
  · rw [if_pos hin]; exact h
  · rw [if_neg hin]
    have hnot : t ∉ m.map Prod.fst := by
      intro hmem
      obtain ⟨e, he, hk⟩ := List.mem_map.mp hmem
      rw [List.any_eq_true] at hin
      exact hin ⟨e, he, by simp [hk]⟩
    simp only [List.Nodup, List.pairwise_append]
    refine ⟨h, by simp, ?_⟩
    intro a ha b hb
    have hb' : b = t := by simpa using hb
    subst hb'
    intro heq
    exact hnot (heq ▸ ha)

theorem nodupKeys_applyTx (m : TickerMap HState) (tx : Transaction)
    (h : NodupKeys m) : NodupKeys (applyTx m tx) := by
  unfold applyTx
  exact nodupKeys_setTicker _ _ _ h

theorem nodupKeys_applyDay (transactions : List Transaction) (day : ℕ) :
    ∀ (m : TickerMap HState), NodupKeys m →
      NodupKeys (applyDay transactions m day) := by
  unfold applyDay
  generalize (transactions.filter (fun t => t.transaction_date = day)) = l
  induction l with
  | nil => intro m h; exact h
  | cons tx rest ih =>
      intro m h
      rw [List.foldl_cons]
      exact ih _ (nodupKeys_applyTx m tx h)

theorem nodupKeys_iterState (transactions : List Transaction)
    (priceHistory : String → ℕ → Option ℚ) :
    ∀ (n day : ℕ) (st : TickerMap HState × TickerMap ℚ), NodupKeys st.1 →
      NodupKeys (iterState transactions priceHistory day n st).1 := by
  intro n
  induction n with
  | zero => intro day st h; exact h
  | succ n ih =>
      intro day st h
      rw [iterState]
      exact ih (day + 1) _ (nodupKeys_applyDay transactions day st.1 h)

-- ===========================================
-- Day-loop lemmas
-- ===========================================

theorem runDays_date_bounds (transactions : List Transaction)
    (priceHistory : String → ℕ → Option ℚ) :
    ∀ (k day : ℕ) (st : TickerMap HState × TickerMap ℚ) (pt : PortfolioDataPoint),
      pt ∈ runDays transactions priceHistory day k st →
      day ≤ pt.date ∧ pt.date < day + k := by
  intro k
  induction k with
  | zero => intro day st pt hpt; simp [runDays] at hpt
  | succ k ih =>
      intro day st pt hpt
      simp only [runDays] at hpt
      split at hpt
      · rcases List.mem_cons.mp hpt with rfl | hpt
        · simp only [mkPoint]
          omega
        · have := ih (day + 1) _ pt hpt
          omega
      · have := ih (day + 1) _ pt hpt
        omega

theorem runDays_pairwise (transactions : List Transaction)
    (priceHistory : String → ℕ → Option ℚ) :
    ∀ (k day : ℕ) (st : TickerMap HState × TickerMap ℚ),
      (runDays transactions priceHistory day k st).Pairwise
        (fun a b => a.date < b.date) := by
  intro k
  induction k with
  | zero => intro day st; simp [runDays]
  | succ k ih =>
      intro day st
      simp only [runDays]
      split
      · refine List.Pairwise.cons ?_ (ih (day + 1) _)
        intro pt hpt
        have := runDays_date_bounds transactions priceHistory k (day + 1) _ pt hpt
        simp only [mkPoint]
        omega
      · exact ih (day + 1) _

theorem runDays_mem_of (transactions : List Transaction)
    (priceHistory : String → ℕ → Option ℚ) :
    ∀ (k n day : ℕ) (st : TickerMap HState × TickerMap ℚ), n < k →
      0 < (dayStats transactions priceHistory (day + n)
            (iterState transactions priceHistory day n st)).1 →
      mkPoint (day + n)
          (dayStats transactions priceHistory (day + n)
            (iterState transactions priceHistory day n st)).1
          (dayStats transactions priceHistory (day + n)
            (iterState transactions priceHistory day n st)).2
        ∈ runDays transactions priceHistory day k st := by
  intro k
  induction k with
  | zero => intro n day st hn; omega
  | succ k ih =>
      intro n day st hn hcb
      cases n with
      | zero =>
          simp only [iterState, Nat.add_zero] at hcb ⊢
          simp only [runDays, dayStats] at hcb ⊢
          rw [if_pos hcb]
          exact List.mem_cons_self _ _
      | succ n =>
          have hshift :
              iterState transactions priceHistory day (n + 1) st
                = iterState transactions priceHistory (day + 1) n
                    (stepState transactions priceHistory day st) := rfl
          have hd : day + (n + 1) = (day + 1) + n := by omega
          rw [hshift, hd] at hcb ⊢
          have hmem := ih n (day + 1) (stepState transactions priceHistory day st)
            (by omega) hcb
          simp only [runDays]
          split
          · exact List.mem_cons_of_mem _ hmem
          · exact hmem

theorem runDays_mem_char (transactions : List Transaction)
    (priceHistory : String → ℕ → Option ℚ) :
    ∀ (k day : ℕ) (st : TickerMap HState × TickerMap ℚ) (pt : PortfolioDataPoint),
      pt ∈ runDays transactions priceHistory day k st →
      ∃ n < k,
        pt = mkPoint (day + n)
            (dayStats transactions priceHistory (day + n)
              (iterState transactions priceHistory day n st)).1
            (dayStats transactions priceHistory (day + n)
              (iterState transactions priceHistory day n st)).2
        ∧ 0 < (dayStats transactions priceHistory (day + n)
              (iterState transactions priceHistory day n st)).1 := by
  intro k
  induction k with
  | zero => intro day st pt hpt; simp [runDays] at hpt
  | succ k ih =>
      intro day st pt hpt
      simp only [runDays] at hpt
      split at hpt
      · rcases List.mem_cons.mp hpt with rfl | hpt
        · refine ⟨0, by omega, ?_, ?_⟩
          · simp only [iterState, Nat.add_zero, dayStats]
          · simpa only [iterState, Nat.add_zero, dayStats] using by assumption
        · obtain ⟨n, hn, hpt', hcb⟩ := ih (day + 1) _ pt hpt
          refine ⟨n + 1, by omega, ?_, ?_⟩
          · rw [hpt']
            have hd : (day + 1) + n = day + (n + 1) := by omega
            rw [← hd]
            rfl
          · have hd : (day + 1) + n = day + (n + 1) := by omega
            rw [← hd]
            exact hcb
      · obtain ⟨n, hn, hpt', hcb⟩ := ih (day + 1) _ pt hpt
        refine ⟨n + 1, by omega, ?_, ?_⟩
        · rw [hpt']
          have hd : (day + 1) + n = day + (n + 1) := by omega
          rw [← hd]
          rfl
        · have hd : (day + 1) + n = day + (n + 1) := by omega
          rw [← hd]
          exact hcb

-- ===========================================
-- dayTotals: cursor update and market-value decomposition
-- ===========================================

theorem tickerDayValue_set_ne (priceHistory : String → ℕ → Option ℚ) (day : ℕ)
    (lk : TickerMap ℚ) (u t : String) (p : ℚ) (h : HState) (hne : t ≠ u) :
    tickerDayValue priceHistory day (setTicker lk u p) t h
      = tickerDayValue priceHistory day lk t h := by
  simp only [tickerDayValue, lookupTicker_set_ne u t p hne]

theorem recordedAt_cons_self (priceHistory : String → ℕ → Option ℚ) (day : ℕ)
    (h : HState) (rest : List (String × HState)) (t : String) :
    recordedAt priceHistory day ((t, h) :: rest) t
      = if 0 < h.quantity then priceHistory t day else none := by
  simp [recordedAt, lookupTicker_cons]

theorem recordedAt_cons_ne (priceHistory : String → ℕ → Option ℚ) (day : ℕ)
    (u : String) (h : HState) (rest : List (String × HState)) (t : String)
    (hne : ¬ u = t) :
    recordedAt priceHistory day ((u, h) :: rest) t
      = recordedAt priceHistory day rest t := by
  simp only [recordedAt, lookupTicker_cons, if_neg hne]

theorem recordedAt_none_of_not_mem (priceHistory : String → ℕ → Option ℚ)
    (day : ℕ) (m : List (String × HState)) (t : String)
    (h : t ∉ m.map Prod.fst) :
    recordedAt priceHistory day m t = none := by
  simp only [recordedAt]
  rw [lookupTicker_none_of_not_mem t m h]

theorem dayTotals_cons_nonpos (priceHistory : String → ℕ → Option ℚ) (day : ℕ)
    (u : String) (h : HState) (rest : List (String × HState)) (lk : TickerMap ℚ)
    (hq : h.quantity ≤ 0) :
    dayTotals priceHistory day ((u, h) :: rest) lk
      = dayTotals priceHistory day rest lk := by
  simp only [dayTotals]
  rw [if_pos hq]

theorem dayTotals_cons_price (priceHistory : String → ℕ → Option ℚ) (day : ℕ)
    (u : String) (h : HState) (rest : List (String × HState)) (lk : TickerMap ℚ)
    (p : ℚ) (hq : ¬ h.quantity ≤ 0) (hph : priceHistory u day = some p) :
    dayTotals priceHistory day ((u, h) :: rest) lk
      = ((dayTotals priceHistory day rest (setTicker lk u p)).1,
         (dayTotals priceHistory day rest (setTicker lk u p)).2.1 + h.costBasis,
         (dayTotals priceHistory day rest (setTicker lk u p)).2.2
           + p * h.quantity * h.avgRate) := by
  simp only [dayTotals]
  rw [if_neg hq, hph]

theorem dayTotals_cons_noprice (priceHistory : String → ℕ → Option ℚ) (day : ℕ)
    (u : String) (h : HState) (rest : List (String × HState)) (lk : TickerMap ℚ)
    (hq : ¬ h.quantity ≤ 0) (hph : priceHistory u day = none) :
    dayTotals priceHistory day ((u, h) :: rest) lk
      = ((dayTotals priceHistory day rest lk).1,
         (dayTotals priceHistory day rest lk).2.1 + h.costBasis,
         (dayTotals priceHistory day rest lk).2.2
           + (match lookupTicker lk u with
              | some price => price * h.quantity * h.avgRate
              | none => h.costBasis)) := by
  simp only [dayTotals]
  rw [if_neg hq, hph]

theorem dayTotals_fst_lookup (priceHistory : String → ℕ → Option ℚ) (day : ℕ)
    (t : String) :
    ∀ (m : List (String × HState)) (lk : TickerMap ℚ),
      (m.map Prod.fst).Nodup →
      lookupTicker (dayTotals priceHistory day m lk).1 t
        = match recordedAt priceHistory day m t with
          | some p => some p
          | none => lookupTicker lk t := by
  intro m
  induction m with
  | nil => intro lk _; simp [dayTotals, recordedAt, lookupTicker]
  | cons e rest ih =>
      intro lk hnd
      obtain ⟨u, h⟩ := e
      simp only [List.map_cons, List.nodup_cons] at hnd
      have hurest : u ∉ rest.map Prod.fst := hnd.1
      by_cases hq : h.quantity ≤ 0
      · rw [dayTotals_cons_nonpos priceHistory day u h rest lk hq, ih lk hnd.2]
        by_cases ht : t = u
        · subst ht
          rw [recordedAt_cons_self, if_neg (not_lt.mpr hq),
            recordedAt_none_of_not_mem priceHistory day rest t hurest]
        · rw [recordedAt_cons_ne priceHistory day u h rest t (fun he => ht he.symm)]
      · rcases hph : priceHistory u day with _ | p
        · rw [dayTotals_cons_noprice priceHistory day u h rest lk hq hph, ih lk hnd.2]
          by_cases ht : t = u
          · subst ht
            rw [recordedAt_cons_self, if_pos (lt_of_not_le hq), hph,
              recordedAt_none_of_not_mem priceHistory day rest t hurest]
          · rw [recordedAt_cons_ne priceHistory day u h rest t (fun he => ht he.symm)]
        · rw [dayTotals_cons_price priceHistory day u h rest lk p hq hph,
            ih (setTicker lk u p) hnd.2]
          by_cases ht : t = u
          · subst ht
            rw [recordedAt_cons_self, if_pos (lt_of_not_le hq), hph,
              recordedAt_none_of_not_mem priceHistory day rest t hurest,
              lookupTicker_set_self]
          · rw [recordedAt_cons_ne priceHistory day u h rest t (fun he => ht he.symm),
              lookupTicker_set_ne u t p ht]

theorem dayTotals_snd_sum (priceHistory : String → ℕ → Option ℚ) (day : ℕ) :
    ∀ (m : List (String × HState)) (lk : TickerMap ℚ),
      (m.map Prod.fst).Nodup →
      (dayTotals priceHistory day m lk).2.2
        = (m.map (fun e => tickerDayValue priceHistory day lk e.1 e.2)).sum := by
  intro m
  induction m with
  | nil => intro lk _; simp [dayTotals]
  | cons e rest ih =>
      intro lk hnd
      obtain ⟨u, h⟩ := e
      simp only [List.map_cons, List.nodup_cons] at hnd
      have hurest : u ∉ rest.map Prod.fst := hnd.1
      simp only [List.map_cons, List.sum_cons]
      by_cases hq : h.quantity ≤ 0
      · rw [dayTotals_cons_nonpos priceHistory day u h rest lk hq, ih lk hnd.2]
        have hval : tickerDayValue priceHistory day lk u h = 0 := by
          simp only [tickerDayValue]
          rw [if_pos hq]
        rw [hval, zero_add]
      · rcases hph : priceHistory u day with _ | p
        · rw [dayTotals_cons_noprice priceHistory day u h rest lk hq hph, ih lk hnd.2]
          have hval : tickerDayValue priceHistory day lk u h
              = match lookupTicker lk u with
                | some price => price * h.quantity * h.avgRate
                | none => h.costBasis := by
            simp only [tickerDayValue]
            rw [if_neg hq, hph]
          rw [hval]
          ring
        · rw [dayTotals_cons_price priceHistory day u h rest lk p hq hph,
            ih (setTicker lk u p) hnd.2]
          have hval : tickerDayValue priceHistory day lk u h
              = p * h.quantity * h.avgRate := by
            simp only [tickerDayValue]
            rw [if_neg hq, hph]
          have hrest : rest.map (fun e => tickerDayValue priceHistory day
                (setTicker lk u p) e.1 e.2)
              = rest.map (fun e => tickerDayValue priceHistory day lk e.1 e.2) := by
            refine List.map_congr_left ?_
            intro e hmem
            refine tickerDayValue_set_ne priceHistory day lk u e.1 p e.2 ?_
            intro heq
            exact hurest (heq ▸ List.mem_map.mpr ⟨e, hmem, rfl⟩)
          rw [hrest, hval]
          ring

-- ===========================================
-- The forward-fill cursor invariant
-- ===========================================

theorem iterState_lookup (transactions : List Transaction)
    (priceHistory : String → ℕ → Option ℚ) (t : String) :
    ∀ (n day : ℕ) (st : TickerMap HState × TickerMap ℚ), NodupKeys st.1 →
      lookupTicker (iterState transactions priceHistory day n st).2 t
        = lastHeldPrice transactions priceHistory t day n st.1
            (lookupTicker st.2 t) := by
  intro n
  induction n with
  | zero => intro day st _; rfl
  | succ n ih =>
      intro day st hnd
      have hnd' : NodupKeys (stepState transactions priceHistory day st).1 :=
        nodupKeys_applyDay transactions day st.1 hnd
      rw [iterState, ih (day + 1) _ hnd', lastHeldPrice]
      have hlk : lookupTicker (stepState transactions priceHistory day st).2 t
          = match recordedAt priceHistory day
              (applyDay transactions st.1 day) t with
            | some p => some p
            | none => lookupTicker st.2 t := by
        exact dayTotals_fst_lookup priceHistory day t
          (applyDay transactions st.1 day) st.2
          (nodupKeys_applyDay transactions day st.1 hnd)
      rw [hlk]
      rfl

-- ===========================================
-- C7: shape of the daily series
-- ===========================================

/-- C7: for any transaction list and price history, building the series
from the earliest transaction date through today yields dates that are
strictly ascending, never before the earliest transaction date nor
after today, and a day carries a point exactly when it is in range and
the replayed total cost basis on that day is positive. -/
theorem claim_C7_series_shape (transactions : List Transaction)
    (priceHistory : String → ℕ → Option ℚ) (startDate today : ℕ)
    (hstart : earliestTransactionDate transactions = some startDate) :
    (buildPortfolioData transactions priceHistory startDate today today).Pairwise
        (fun a b => a.date < b.date)
    ∧ (∀ pt ∈ buildPortfolioData transactions priceHistory startDate today today,
        startDate ≤ pt.date ∧ pt.date ≤ today)
    ∧ (∀ d : ℕ,
        (∃ pt ∈ buildPortfolioData transactions priceHistory startDate today today,
          pt.date = d)
        ↔ (startDate ≤ d ∧ d ≤ today ∧
            0 < replayedCostBasisOn transactions priceHistory startDate d)) := by
  have hk : numDays startDate today today = today + 1 - startDate := by
    simp [numDays]
  simp only [buildPortfolioData]
  refine ⟨?_, ?_, ?_⟩
  · exact runDays_pairwise transactions priceHistory _ _ _
  · intro pt hpt
    have hb := runDays_date_bounds transactions priceHistory _ _ _ pt hpt
    rw [hk] at hb
    omega
  · intro d
    constructor
    · rintro ⟨pt, hpt, hdate⟩
      obtain ⟨n, hn, hpt', hcb⟩ :=
        runDays_mem_char transactions priceHistory _ _ _ pt hpt
      rw [hk] at hn
      have hdn : pt.date = startDate + n := by rw [hpt']; rfl
      have hd : d = startDate + n := by omega
      refine ⟨by omega, by omega, ?_⟩
      simp only [replayedCostBasisOn]
      have hsub : d - startDate = n := by omega
      rw [hsub, hd]
      exact hcb
    · rintro ⟨hd1, hd2, hcb⟩
      have hn : d - startDate < numDays startDate today today := by
        rw [hk]; omega
      have hcb' : 0 < (dayStats transactions priceHistory
          (startDate + (d - startDate))
          (iterState transactions priceHistory startDate (d - startDate)
            ([], []))).1 := by
        have hds : startDate + (d - startDate) = d := by omega
        rw [hds]
        simpa only [replayedCostBasisOn] using hcb
      have hmem := runDays_mem_of transactions priceHistory _ (d - startDate)
        startDate ([], []) hn hcb'
      refine ⟨_, hmem, ?_⟩
      simp only [mkPoint]
      omega

/-- Witness for C7 at a concrete one-transaction portfolio. -/
theorem claim_C7_witness :
    (buildPortfolioData [c6Tx] (fun _ _ => none) 1 2 2).Pairwise
        (fun a b => a.date < b.date)
    ∧ (∀ pt ∈ buildPortfolioData [c6Tx] (fun _ _ => none) 1 2 2,
        1 ≤ pt.date ∧ pt.date ≤ 2)
    ∧ (∀ d : ℕ,
        (∃ pt ∈ buildPortfolioData [c6Tx] (fun _ _ => none) 1 2 2, pt.date = d)
        ↔ (1 ≤ d ∧ d ≤ 2 ∧
            0 < replayedCostBasisOn [c6Tx] (fun _ _ => none) 1 d)) :=
  claim_C7_series_shape [c6Tx] (fun _ _ => none) 1 2 (by decide)

-- ===========================================
-- C3: forward-fill of missing prices
-- ===========================================

/-- C3 (amended): suppose day startDate + n lies in the iterated range,
the ticker is held with positive quantity when that day is totalled,
the price history has no entry for the ticker on that day, the
last-recorded-while-held price over the n prior iterated days is P, and
the day emits a point (its total cost basis is positive).  Then the
emitted point for that day has market value equal to the sum of the
per-ticker day values, and the day value of this ticker is exactly
P · quantity · weightedAvgRate - the forward-filled last known price,
not zero and not an interpolation. -/
theorem claim_C3_forward_fill_gap_day (transactions : List Transaction)
    (priceHistory : String → ℕ → Option ℚ) (startDate endDate today n : ℕ)
    (t : String) (hs : HState) (P : ℚ)
    (hrange : startDate + n ≤ min endDate today)
    (hfind : lookupTicker
        (applyDay transactions
          (iterState transactions priceHistory startDate n ([], [])).1
          (startDate + n)) t = some hs)
    (hq : 0 < hs.quantity)
    (hnone : priceHistory t (startDate + n) = none)
    (hlast : lastHeldPrice transactions priceHistory t startDate n [] none = some P)
    (hcb : 0 < (dayStats transactions priceHistory (startDate + n)
        (iterState transactions priceHistory startDate n ([], []))).1) :
    ∃ pt ∈ buildPortfolioData transactions priceHistory startDate endDate today,
      pt.date = startDate + n ∧
      pt.totalMarketValue
        = ((applyDay transactions
            (iterState transactions priceHistory startDate n ([], [])).1
            (startDate + n)).map
            (fun e => tickerDayValue priceHistory (startDate + n)
              (iterState transactions priceHistory startDate n ([], [])).2 e.1 e.2)).sum ∧
      tickerDayValue priceHistory (startDate + n)
          (iterState transactions priceHistory startDate n ([], [])).2 t hs
        = P * hs.quantity * hs.avgRate := by
  have hnd0 : NodupKeys (([], ([] : TickerMap ℚ)) :
      TickerMap HState × TickerMap ℚ).1 := by
    simp [NodupKeys]
  have hndIter := nodupKeys_iterState transactions priceHistory n startDate
    ([], []) hnd0
  have hndm := nodupKeys_applyDay transactions (startDate + n) _ hndIter
  have hn : n < numDays startDate endDate today := by
    simp only [numDays]
    omega
  have hmem := runDays_mem_of transactions priceHistory
    (numDays startDate endDate today) n startDate ([], []) hn hcb
  have hcursor : lookupTicker
      (iterState transactions priceHistory startDate n ([], [])).2 t = some P := by
    rw [iterState_lookup transactions priceHistory t n startDate ([], []) hnd0]
    simpa [lookupTicker] using hlast
  refine ⟨_, hmem, rfl, ?_, ?_⟩
  · show (dayTotals priceHistory (startDate + n)
        (applyDay transactions
          (iterState transactions priceHistory startDate n ([], [])).1
          (startDate + n))
        (iterState transactions priceHistory startDate n ([], [])).2).2.2 = _
    exact dayTotals_snd_sum priceHistory (startDate + n) _ _ hndm
  · simp only [tickerDayValue]
    rw [if_neg (not_le.mpr hq), hnone, hcursor]

def c3cTx1 : Transaction :=
  { ticker := "A", asset_type := "STOCK", asset_name := "A"
    transaction_type := TxType.BUY, quantity := 1, price_per_share := 100
    currency := "PLN", exchange_rate_to_pln := 1, transaction_date := 0 }

def c3cTx2 : Transaction :=
  { c3cTx1 with transaction_type := TxType.SELL, transaction_date := 1 }

def c3cTx3 : Transaction :=
  { c3cTx1 with transaction_date := 2 }

def c3cPh : String → ℕ → Option ℚ := fun t d =>
  if t = "A" ∧ d = 1 then some 110 else none

/-- Counterexample to C3 as stated: the single ticker A is bought on
day 0, fully sold on day 1 and bought again on day 2; the only price
entry, 110, is on day 1, an earlier day of the iterated range, and day
2 has no entry.  A point is emitted for day 2 with the ticker held at
quantity 1 and average rate 1, yet its market value is 100 (the
cost-basis fallback), not the claimed lastKnownPrice · quantity ·
weightedAvgRate = 110 · 1 · 1: the price cursor only records prices on
days the ticker is held with positive quantity. -/
theorem claim_C3_counterexample :
    c3cPh "A" 2 = none ∧
    c3cPh "A" 1 = some 110 ∧
    lookupTicker (applyDay [c3cTx1, c3cTx2, c3cTx3]
        (iterState [c3cTx1, c3cTx2, c3cTx3] c3cPh 0 2 ([], [])).1 2) "A"
      = some { quantity := 1, costBasis := 100, avgRate := 1 } ∧
    buildPortfolioData [c3cTx1, c3cTx2, c3cTx3] c3cPh 0 2 2
      = [{ date := 0, totalCostBasis := 100, totalMarketValue := 100
           profit := 0, profitPercent := 0 },
         { date := 2, totalCostBasis := 100, totalMarketValue := 100
           profit := 0, profitPercent := 0 }] ∧
    (100 : ℚ) ≠ 110 * 1 * 1 := by
  refine ⟨rfl, rfl, ?_, ?_, by norm_num⟩
  · norm_num [iterState, stepState, applyDay, applyTx, dayTotals, lookupTicker,
      setTicker, List.filter_cons, c3cTx1, c3cTx2, c3cTx3, c3cPh]
  · norm_num [buildPortfolioData, numDays, runDays, mkPoint, iterState, stepState,
      applyDay, applyTx, dayTotals, lookupTicker, setTicker, List.filter_cons,
      c3cTx1, c3cTx2, c3cTx3, c3cPh]

def c3wTx : Transaction :=
  { ticker := "A", asset_type := "STOCK", asset_name := "A"
    transaction_type := TxType.BUY, quantity := 1, price_per_share := 100
    currency := "PLN", exchange_rate_to_pln := 1, transaction_date := 0 }

def c3wPh : String → ℕ → Option ℚ := fun t d =>
  if t = "A" ∧ d = 0 then some 100
  else if t = "A" ∧ d = 4 then some 110 else none

/-- Witness for C3: one ticker bought on day 0 at known price 100, a
price gap on days 1-3 before the next entry 110 on day 4; the point on
day 2 values the ticker at the forward-filled 100. -/
theorem claim_C3_witness :
    ∃ pt ∈ buildPortfolioData [c3wTx] c3wPh 0 4 4,
      pt.date = 2 ∧
      tickerDayValue c3wPh 2 (iterState [c3wTx] c3wPh 0 2 ([], [])).2 "A"
        { quantity := 1, costBasis := 100, avgRate := 1 } = 100 := by
  have h := claim_C3_forward_fill_gap_day [c3wTx] c3wPh 0 4 4 2 "A"
    { quantity := 1, costBasis := 100, avgRate := 1 } 100
    (by norm_num)
    (by norm_num [iterState, stepState, applyDay, applyTx, dayTotals, lookupTicker,
      setTicker, List.filter_cons, c3wTx, c3wPh])
    (by norm_num)
    (by norm_num [c3wPh])
    (by norm_num [lastHeldPrice, recordedAt, applyDay, applyTx, lookupTicker,
      setTicker, List.filter_cons, c3wTx, c3wPh])
    (by norm_num [dayStats, iterState, stepState, applyDay, applyTx, dayTotals,
      lookupTicker, setTicker, List.filter_cons, c3wTx, c3wPh])
  obtain ⟨pt, hmem, hdate, _, hval⟩ := h
  refine ⟨pt, hmem, by simpa using hdate, by simpa using hval⟩
